import Mathlib

/-!
Shallow embedding of `src/semantic_segmentation/src/core/infer.py`
(sliding-window and multi-scale test-time-augmented inference for a
semantic-segmentation model), together with theorems settling the frozen
claims about it.

Modelling conventions:
* A paddle 4-D tensor (batch, channels, height, width) is a `Tensor4`:
  a shape plus a total data function; every tensor the code constructs
  is built with `tmk`, which zeroes the data outside the shape, so that
  extensionally equal tensors are `Eq` (see `masked_eq`).
* Tensor scalars are `ℚ`.  The only transcendental the code uses is the
  exponential inside `F.softmax`; the embedding takes the scalar
  exponential as an explicit parameter `e : ℚ → ℚ` of `softmax`,
  `inference` and `aug_inference` (the real code instantiates it with
  the real `exp`; concrete witnesses instantiate it with the rational
  stand-in `pexp`).
* Python `int` arithmetic on sizes/strides is `Int`; Python `//` is
  `Int.fdiv`; Python `int()` on a nonnegative float is `pyInt`.
* Exceptions are `Except PyErr`: `ZeroDivisionError` from `// 0`,
  `IndexError` from `logits[0]` on an empty sequence, the broadcast
  error paddle raises when `final_logit += F.pad(...)` receives a
  mismatched shape, and `TypeError`s.  In Python 3, `raise obj` where
  `obj` is a `str` (as `aug_inference` does for non-sequence `scales`)
  raises `TypeError("exceptions must derive from BaseException")`; the
  embedding reproduces exactly that observable behaviour.
* Each entry point is instrumented as a `*_run` function returning the
  list of images passed to the model (the observable model invocations,
  in call order) together with the result; `slide_inference`,
  `inference` and `aug_inference` are the result projections.
-/

namespace Infer

/-- Python-level exceptions the embedded code can raise. -/
inductive PyErr where
  | zeroDivision : PyErr
  | indexError : PyErr
  | shapeError : PyErr
  | typeError (msg : String) : PyErr
  | argmaxNonTensor : PyErr
  deriving DecidableEq

/-- A 4-D tensor: shape (n, c, h, w) plus a total data function. -/
structure Tensor4 where
  n : Nat
  c : Nat
  h : Nat
  w : Nat
  data : Nat → Nat → Nat → Nat → ℚ

/-- Build a tensor whose data is zero outside the shape. -/
def tmk (n c h w : Nat) (f : Nat → Nat → Nat → Nat → ℚ) : Tensor4 :=
  ⟨n, c, h, w, fun i j y x => if i < n ∧ j < c ∧ y < h ∧ x < w then f i j y x else 0⟩

/-- A tensor is masked when its data vanishes outside its shape.  Every
tensor built by the embedded code is masked. -/
def Tensor4.Masked (t : Tensor4) : Prop :=
  ∀ i j y x, t.data i j y x ≠ 0 → i < t.n ∧ j < t.c ∧ y < t.h ∧ x < t.w

/-- Extensional tensor equality: same shape and same entries inside it. -/
def teq (a b : Tensor4) : Prop :=
  a.n = b.n ∧ a.c = b.c ∧ a.h = b.h ∧ a.w = b.w ∧
    ∀ i < a.n, ∀ j < a.c, ∀ y < a.h, ∀ x < a.w, a.data i j y x = b.data i j y x

instance (a b : Tensor4) : Decidable (teq a b) := by
  unfold teq; infer_instance

/-- `paddle.zeros([n, c, h, w])`. -/
def tzeros (n c h w : Nat) : Tensor4 := tmk n c h w fun _ _ _ _ => 0

/-- Elementwise tensor addition (`+=`); the left operand fixes the shape. -/
def tadd (a b : Tensor4) : Tensor4 :=
  tmk a.n a.c a.h a.w fun i j y x => a.data i j y x + b.data i j y x

/-- `img[:, :, h1:h2, w1:w2]` for `0 ≤ h1 ≤ h2` and `0 ≤ w1 ≤ w2`. -/
def tcrop (t : Tensor4) (h1 h2 w1 w2 : Int) : Tensor4 :=
  tmk t.n t.c (h2 - h1).toNat (w2 - w1).toNat fun i j y x =>
    t.data i j (h1.toNat + y) (w1.toNat + x)

/-- `F.pad(t, [l, r, top, bot])`: zero-pad the last two axes. -/
def tpad (t : Tensor4) (l r top bot : Nat) : Tensor4 :=
  tmk t.n t.c (t.h + top + bot) (t.w + l + r) fun i j y x =>
    if top ≤ y ∧ l ≤ x then t.data i j (y - top) (x - l) else 0

/-- `t[:, :, :, ::-1]`: flip along the width axis. -/
def thflip (t : Tensor4) : Tensor4 :=
  tmk t.n t.c t.h t.w fun i j y x => t.data i j y (t.w - 1 - x)

/-- The prediction map `paddle.argmax(..., axis=1, keepdim=True)` returns:
shape (1, 1, h, w), integer class indices. -/
structure Pred4 where
  h : Nat
  w : Nat
  data : Nat → Nat → Nat

/-- Index of the first occurrence of the maximum of `f` on `[0, nc)`
(paddle/numpy argmax tie-breaking). -/
def amx (f : Nat → ℚ) (nc : Nat) : Nat :=
  (List.range nc).foldl (fun b k => if f b < f k then k else b) 0

/-- `paddle.argmax(t, axis=1, keepdim=True)`. -/
def argmaxChan (t : Tensor4) : Pred4 :=
  ⟨t.h, t.w, fun y x => if y < t.h ∧ x < t.w then amx (fun k => t.data 0 k y x) t.c else 0⟩

/-- Extensional equality of prediction maps. -/
def peq (p q : Pred4) : Prop :=
  p.h = q.h ∧ p.w = q.w ∧ ∀ y < p.h, ∀ x < p.w, p.data y x = q.data y x

instance (p q : Pred4) : Decidable (peq p q) := by
  unfold peq; infer_instance

/-- `F.softmax(t, axis=1)` with the scalar exponential abstracted as `e`. -/
def softmax (e : ℚ → ℚ) (t : Tensor4) : Tensor4 :=
  tmk t.n t.c t.h t.w fun i j y x =>
    e (t.data i j y x) / ∑ k ∈ Finset.range t.c, e (t.data i k y x)

/-- A rational stand-in for the exponential: positive and strictly
monotone, used to instantiate `e` in concrete witnesses. -/
def pexp (q : ℚ) : ℚ := if 0 ≤ q then 1 + q else 1 / (1 - q)

/-- Source coordinate of bilinear interpolation with
`align_corners=False`: `(d + 0.5) * (in / out) - 0.5`, clamped to `≥ 0`
as in the paddle kernel. -/
def srcCoord (inSz outSz d : Nat) : ℚ :=
  max (((d : ℚ) + 1 / 2) * ((inSz : ℚ) / (outSz : ℚ)) - 1 / 2) 0

/-- `F.interpolate(t, (oh, ow), mode='bilinear', align_corners=False)`. -/
def interpolate (t : Tensor4) (oh ow : Nat) : Tensor4 :=
  tmk t.n t.c oh ow fun i j y x =>
    let sy := srcCoord t.h oh y
    let sx := srcCoord t.w ow x
    let y0 := (⌊sy⌋).toNat
    let x0 := (⌊sx⌋).toNat
    let y1 := min (y0 + 1) (t.h - 1)
    let x1 := min (x0 + 1) (t.w - 1)
    let fy := sy - (y0 : ℚ)
    let fx := sx - (x0 : ℚ)
    (1 - fy) * (1 - fx) * t.data i j y0 x0 + (1 - fy) * fx * t.data i j y0 x1 +
      fy * (1 - fx) * t.data i j y1 x0 + fy * fx * t.data i j y1 x1

/-- Python `int()` (truncation toward zero) on a rational. -/
def pyInt (q : ℚ) : Int := if 0 ≤ q then ⌊q⌋ else -⌊-q⌋

/-- Number of sliding-window rows along a dimension of size `sz`:
`max(sz - crop + stride - 1, 0) // stride + 1`, forced to 1 when
`sz ≤ crop` (lines 27-31 of `infer.py`; the code computes the division
first and overrides afterwards, which is observably identical for a
nonzero stride, the only case in which the division succeeds). -/
def rowsOf (sz crop stride : Int) : Int :=
  if sz ≤ crop then 1 else (max (sz - crop + stride - 1) 0).fdiv stride + 1

/-- Upper bound of window `r`: `h2 = min(r * stride + crop, sz)`. -/
def winHi (sz crop stride : Int) (r : Nat) : Int := min ((r : Int) * stride + crop) sz

/-- Lower bound of window `r`: `h1 = max(h2 - crop, 0)`. -/
def winLo (sz crop stride : Int) (r : Nat) : Int := max (winHi sz crop stride r - crop) 0

/-- Final value of the Coverage Count Map entry at pixel `(y, x)`: the
number of windows whose `count[:, :, h1:h2, w1:w2] += 1` covers it.
`crop` and `stride` are `(w, h)` pairs, as in the code. -/
def countMap (H W : Nat) (crop stride : Int × Int) (y x : Nat) : Nat :=
  ∑ r ∈ Finset.range (rowsOf H crop.2 stride.2).toNat,
    ∑ c ∈ Finset.range (rowsOf W crop.1 stride.1).toNat,
      if winLo H crop.2 stride.2 r ≤ (y : Int) ∧ (y : Int) < winHi H crop.2 stride.2 r ∧
          winLo W crop.1 stride.1 c ≤ (x : Int) ∧ (x : Int) < winHi W crop.1 stride.1 c
      then 1 else 0

/-- One iteration of the window loop of `slide_inference` (lines 34-46):
crop the window `(p.1, p.2)`, run the model, take `logits[0]`, zero-pad
to full size and accumulate.  The state carries the model-call trace and
the `final_logit` accumulator; paddle's broadcast error on a mismatched
`+=` is modelled as `shapeError`. -/
def slideStep (model : Tensor4 → List Tensor4) (img : Tensor4)
    (crop_size stride_size : Int × Int) (num_classes : Nat)
    (st : Except (List Tensor4 × PyErr) (List Tensor4 × Tensor4)) (p : Nat × Nat) :
    Except (List Tensor4 × PyErr) (List Tensor4 × Tensor4) :=
  match st with
  | .error er => .error er
  | .ok (tr, acc) =>
    let H : Int := img.h
    let W : Int := img.w
    let h2 := winHi H crop_size.2 stride_size.2 p.1
    let h1 := winLo H crop_size.2 stride_size.2 p.1
    let w2 := winHi W crop_size.1 stride_size.1 p.2
    let w1 := winLo W crop_size.1 stride_size.1 p.2
    let cr := tcrop img h1 h2 w1 w2
    match (model cr).head? with
    | none => .error (tr ++ [cr], .indexError)
    | some lg =>
      if lg.n = 1 ∧ lg.c = num_classes ∧ lg.h = (h2 - h1).toNat ∧ lg.w = (w2 - w1).toNat then
        .ok (tr ++ [cr], tadd acc (tpad lg w1.toNat (W - w2).toNat h1.toNat (H - h2).toNat))
      else
        .error (tr ++ [cr], .shapeError)

/-- `slide_inference(model, img, crop_size, stride_size, num_classes)`
(lines 9-49), instrumented with the model-call trace.  `crop_size` and
`stride_size` are `(w, h)` pairs.  A zero stride is the Python
`ZeroDivisionError` from the `rows`/`cols` computation. -/
def slide_run (model : Tensor4 → List Tensor4) (img : Tensor4)
    (crop_size stride_size : Int × Int) (num_classes : Nat) :
    List Tensor4 × Except PyErr Tensor4 :=
  if stride_size.2 = 0 ∨ stride_size.1 = 0 then ([], .error .zeroDivision) else
  let rows := (rowsOf img.h crop_size.2 stride_size.2).toNat
  let cols := (rowsOf img.w crop_size.1 stride_size.1).toNat
  let pairs := (List.range rows).flatMap fun r => (List.range cols).map fun c => (r, c)
  match pairs.foldl (slideStep model img crop_size stride_size num_classes)
      (.ok ([], tzeros 1 num_classes img.h img.w)) with
  | .error (tr, er) => (tr, .error er)
  | .ok (tr, acc) =>
    (tr, .ok (tmk 1 num_classes img.h img.w fun i j y x =>
      acc.data i j y x / (countMap img.h img.w crop_size stride_size y x : ℚ)))

/-- The `slide_inference` return value. -/
def slide_inference (model : Tensor4 → List Tensor4) (img : Tensor4)
    (crop_size stride_size : Int × Int) (num_classes : Nat) : Except PyErr Tensor4 :=
  (slide_run model img crop_size stride_size num_classes).2

/-- The two possible return values of `inference`: a raw logit map
(`ori_shape is None`) or a prediction map. -/
inductive InferOut where
  | logit (t : Tensor4)
  | pred (p : Pred4)

/-- Project the prediction out of an `InferOut` (junk on the logit case). -/
def InferOut.predD : InferOut → Pred4
  | .pred p => p
  | .logit _ => ⟨0, 0, fun _ _ => 0⟩

/-- `inference(model, img, ori_shape, transforms, is_slide, stride_size,
crop_size, num_classes)` (lines 52-86), instrumented with the model-call
trace.  The model is typed as returning a `List`, so the
`isinstance(logits, collections.abc.Sequence)` guard of the whole-image
branch is satisfied by construction. -/
def inference_run (e : ℚ → ℚ) (model : Tensor4 → List Tensor4) (img : Tensor4)
    (ori_shape : Option (Nat × Nat)) (transforms : List Unit) (is_slide : Bool)
    (stride_size crop_size : Int × Int) (num_classes : Nat) :
    List Tensor4 × Except PyErr InferOut :=
  let logitRes : List Tensor4 × Except PyErr Tensor4 :=
    if is_slide then slide_run model img crop_size stride_size num_classes
    else
      match (model img).head? with
      | none => ([img], .error .indexError)
      | some lg => ([img], .ok lg)
  match logitRes with
  | (tr, .error er) => (tr, .error er)
  | (tr, .ok logit) =>
    match ori_shape with
    | some os => (tr, .ok (.pred (argmaxChan (softmax e (interpolate logit os.1 os.2)))))
    | none => (tr, .ok (.logit logit))

/-- The `inference` return value. -/
def inference (e : ℚ → ℚ) (model : Tensor4 → List Tensor4) (img : Tensor4)
    (ori_shape : Option (Nat × Nat)) (transforms : List Unit) (is_slide : Bool)
    (stride_size crop_size : Int × Int) (num_classes : Nat) : Except PyErr InferOut :=
  (inference_run e model img ori_shape transforms is_slide stride_size crop_size num_classes).2

/-- The dynamically typed `scales` argument of `aug_inference`. -/
inductive PyScales where
  | list (l : List ℚ)
  | tuple (l : List ℚ)
  | str (s : String)
  | other (pytype : String)

/-- The Python type name of a `scales` value. -/
def PyScales.pyTypeName : PyScales → String
  | .list _ => "list"
  | .tuple _ => "tuple"
  | .str _ => "str"
  | .other t => t

/-- Loop state of the scale loop of `aug_inference`: the (rebound) image
variable, the `final_logit` accumulator (`none` is the initial Python
scalar `0`), and the model-call trace. -/
structure AugState where
  img : Tensor4
  acc : Option Tensor4
  trace : List Tensor4

/-- `final_logit = final_logit + logit` where `final_logit` starts as the
Python scalar `0`. -/
def addAcc (acc : Option Tensor4) (t : Tensor4) : Tensor4 :=
  match acc with
  | none => t
  | some a => tadd a t

/-- The image the scale loop of `aug_inference` runs on for one scale
factor: the target size is computed from the pre-loop input dimensions
(`int(h_input * scale + 0.5)`, lines 128-129), adjusted so the shorter
edge is at least `crop_size[0]` (lines 132-138), and the current image
is bilinearly resized to it (line 139). -/
def augImgR (h_input w_input : Nat) (crop_size : Int × Int) (img : Tensor4)
    (scale : ℚ) : Tensor4 :=
  let h0 := pyInt ((h_input : ℚ) * scale + 1 / 2)
  let w0 := pyInt ((w_input : ℚ) * scale + 1 / 2)
  let hw : Int × Int :=
    if min h0 w0 < crop_size.1 then
      if h0 > w0 then (pyInt ((crop_size.1 : ℚ) * (h0 : ℚ) / (w0 : ℚ)), crop_size.1)
      else (crop_size.1, pyInt ((crop_size.1 : ℚ) * (w0 : ℚ) / (h0 : ℚ)))
    else (h0, w0)
  interpolate img hw.1.toNat hw.2.toNat

/-- One iteration of the scale loop of `aug_inference` (lines 127-152).
`h_input`/`w_input` are the pre-loop dimensions of the original image;
the image variable itself is rebound to the resized image each
iteration, exactly as in the code. -/
def augStep (e : ℚ → ℚ) (model : Tensor4 → List Tensor4) (ori_shape : Nat × Nat)
    (stride_size crop_size : Int × Int) (num_classes : Nat) (h_input w_input : Nat)
    (flip_horizontal : Bool)
    (st : Except (List Tensor4 × PyErr) AugState) (scale : ℚ) :
    Except (List Tensor4 × PyErr) AugState :=
  match st with
  | .error er => .error er
  | .ok s =>
    let imgR := augImgR h_input w_input crop_size s.img scale
    match slide_run model imgR crop_size stride_size num_classes with
    | (tr1, .error er) => .error (s.trace ++ tr1, er)
    | (tr1, .ok t1) =>
      let logit1 := softmax e (interpolate t1 ori_shape.1 ori_shape.2)
      if flip_horizontal then
        match slide_run model (thflip imgR) crop_size stride_size num_classes with
        | (tr2, .error er) => .error (s.trace ++ tr1 ++ tr2, er)
        | (tr2, .ok t2) =>
          let logit2 := softmax e (interpolate (thflip t2) ori_shape.1 ori_shape.2)
          .ok ⟨imgR, some (tadd (addAcc s.acc logit1) logit2), s.trace ++ tr1 ++ tr2⟩
      else
        .ok ⟨imgR, some (addAcc s.acc logit1), s.trace ++ tr1⟩

/-- `aug_inference(model, img, ori_shape, transforms, is_slide,
stride_size, crop_size, num_classes, scales, flip_horizontal,
flip_vertical)` (lines 89-154), instrumented with the model-call trace.

* Non-sequence `scales`: the code executes `raise('...'.format(...))`,
  i.e. raises a `str`, which in Python 3 raises
  `TypeError("exceptions must derive from BaseException")`.
* Empty `scales`: `final_logit` stays the Python scalar `0` and
  `paddle.argmax(0, axis=1, keepdim=True, dtype='int32')` rejects the
  non-tensor input, modelled as `argmaxNonTensor`.
* `flip_vertical` is accepted but never read (the `TODO` on line 152). -/
def aug_run (e : ℚ → ℚ) (model : Tensor4 → List Tensor4) (img : Tensor4)
    (ori_shape : Nat × Nat) (transforms : List Unit) (is_slide : Bool)
    (stride_size crop_size : Int × Int) (num_classes : Nat) (scales : PyScales)
    (flip_horizontal flip_vertical : Bool) : List Tensor4 × Except PyErr Pred4 :=
  match scales with
  | .list l | .tuple l =>
    match l.foldl
        (augStep e model ori_shape stride_size crop_size num_classes img.h img.w
          flip_horizontal)
        (.ok ⟨img, none, []⟩) with
    | .error (tr, er) => (tr, .error er)
    | .ok s =>
      match s.acc with
      | some a => (s.trace, .ok (argmaxChan a))
      | none => (s.trace, .error .argmaxNonTensor)
  | _ => ([], .error (.typeError "exceptions must derive from BaseException"))

/-- The `aug_inference` return value. -/
def aug_inference (e : ℚ → ℚ) (model : Tensor4 → List Tensor4) (img : Tensor4)
    (ori_shape : Nat × Nat) (transforms : List Unit) (is_slide : Bool)
    (stride_size crop_size : Int × Int) (num_classes : Nat) (scales : PyScales)
    (flip_horizontal flip_vertical : Bool) : Except PyErr Pred4 :=
  (aug_run e model img ori_shape transforms is_slide stride_size crop_size num_classes
    scales flip_horizontal flip_vertical).2

/-- A pixelwise model: its logit at a pixel is a function of that pixel
of channel 0 of the input alone (e.g. an identity-logit stub). -/
def pwT (g : Nat → ℚ → ℚ) (nc : Nat) (t : Tensor4) : Tensor4 :=
  tmk 1 nc t.h t.w fun _ k y x => g k (t.data 0 0 y x)

/-- `n` windows placed by `winLo`/`winHi` cover every pixel of the
dimension. -/
def covers1D (sz crop stride : Int) (nwin : Nat) : Prop :=
  ∀ y : Int, 0 ≤ y → y < sz → ∃ r : Nat, r < nwin ∧
    winLo sz crop stride r ≤ y ∧ y < winHi sz crop stride r

/-! ### Concrete instances used by witnesses and counterexamples -/

/-- A 1×1×2×2 test image. -/
def wImg : Tensor4 := tmk 1 1 2 2 fun _ _ y x => (y : ℚ) + x

/-- A deterministic single-output model: adds 7 to channel 0. -/
def wModel : Tensor4 → List Tensor4 :=
  fun t => [tmk 1 1 t.h t.w fun _ _ y x => t.data 0 0 y x + 7]

/-- A 1×1×2×3 image with rows (0.49, 1, 0): its first pixel is just
under the 0.5 decision threshold of `cModel3`. -/
def cImg3 : Tensor4 :=
  tmk 1 1 2 3 fun _ _ _ x => if x = 0 then 49 / 100 else if x = 1 then 1 else 0

/-- A pixelwise two-class model: channel 0 copies the pixel, channel 1 is
the constant 1/2, so the prediction is 0 exactly where the pixel is at
least 1/2. -/
def cModel3 : Tensor4 → List Tensor4 :=
  fun t => [tmk 1 2 t.h t.w fun _ k y x => if k = 0 then t.data 0 0 y x else 1 / 2]

/-- Sum of channel 0 of a tensor (a flip-invariant global statistic). -/
def tsum0 (t : Tensor4) : ℚ :=
  ∑ y ∈ Finset.range t.h, ∑ x ∈ Finset.range t.w, t.data 0 0 y x

/-- A 1×1×2×5 palindromic image: both rows are (0, 0, 1, 0, 0). -/
def cImg8 : Tensor4 := tmk 1 1 2 5 fun _ _ _ x => if x = 2 then 1 else 0

/-- A two-class model equivariant under horizontal mirroring: channel `k`
at a pixel is the pixel value plus `k` times the (flip-invariant) sum of
the crop it sees — so its output depends on the whole window, not just
the pixel. -/
def cModel8 : Tensor4 → List Tensor4 :=
  fun t => [tmk 1 2 t.h t.w fun _ k y x => t.data 0 0 y x + k * tsum0 t]

/-- Channel functions of a pixelwise two-class witness model. -/
def gW : Nat → ℚ → ℚ := fun k q => if k = 0 then q else 1 - q

/-- The zero-padded contribution of window `(p.1, p.2)` to the
`final_logit` accumulator of `slide_inference` run with the pixelwise
model built from `g`. -/
def padContrib (g : Nat → ℚ → ℚ) (nc : Nat) (img : Tensor4) (cs ss : Int × Int)
    (p : Nat × Nat) : Tensor4 :=
  tpad (pwT g nc (tcrop img (winLo img.h cs.2 ss.2 p.1) (winHi img.h cs.2 ss.2 p.1)
      (winLo img.w cs.1 ss.1 p.2) (winHi img.w cs.1 ss.1 p.2)))
    (winLo img.w cs.1 ss.1 p.2).toNat ((img.w : Int) - winHi img.w cs.1 ss.1 p.2).toNat
    (winLo img.h cs.2 ss.2 p.1).toNat ((img.h : Int) - winHi img.h cs.2 ss.2 p.1).toNat

/-! ### Basic tensor lemmas -/

theorem tmk_masked (n c h w : Nat) (f : Nat → Nat → Nat → Nat → ℚ) :
    (tmk n c h w f).Masked := by
  intro i j y x hne
  by_contra hc
  exact hne (if_neg hc)

theorem t4ext (a b : Tensor4) (hn : a.n = b.n) (hc : a.c = b.c) (hh : a.h = b.h)
    (hw : a.w = b.w) (hd : ∀ i j y x, a.data i j y x = b.data i j y x) : a = b := by
  cases a
  cases b
  simp only at hn hc hh hw hd
  subst hn
  subst hc
  subst hh
  subst hw
  congr 1
  funext i j y x
  exact hd i j y x

theorem tcrop_full (t : Tensor4) (hM : t.Masked) :
    tcrop t 0 (t.h : Int) 0 (t.w : Int) = t := by
  refine t4ext _ _ rfl rfl (by simp [tcrop, tmk]) (by simp [tcrop, tmk]) ?_
  intro i j y x
  simp only [tcrop, tmk, Int.sub_zero, Int.toNat_natCast, Int.toNat_zero, Nat.zero_add]
  split
  · rfl
  · rename_i hc
    by_cases h0 : t.data i j y x = 0
    · exact h0.symm
    · exact absurd (hM i j y x h0) hc

/-- Bilinear resize to a tensor's own size is the identity: with
`align_corners=False` and equal sizes the source coordinate of pixel `d`
is exactly `d`. -/
theorem interpolate_self (t : Tensor4) (hM : t.Masked) : interpolate t t.h t.w = t := by
  refine t4ext _ _ rfl rfl rfl rfl ?_
  intro i j y x
  simp only [interpolate, tmk]
  split
  · rename_i hcond
    obtain ⟨hi, hj, hy, hx⟩ := hcond
    have hh0 : (0 : ℚ) < (t.h : ℚ) := by
      have : 0 < t.h := Nat.pos_of_ne_zero (by omega)
      exact_mod_cast this
    have hw0 : (0 : ℚ) < (t.w : ℚ) := by
      have : 0 < t.w := Nat.pos_of_ne_zero (by omega)
      exact_mod_cast this
    have hsy : srcCoord t.h t.h y = (y : ℚ) := by
      unfold srcCoord
      rw [div_self (ne_of_gt hh0), mul_one, add_sub_cancel_right]
      exact max_eq_left (by positivity)
    have hsx : srcCoord t.w t.w x = (x : ℚ) := by
      unfold srcCoord
      rw [div_self (ne_of_gt hw0), mul_one, add_sub_cancel_right]
      exact max_eq_left (by positivity)
    rw [hsy, hsx]
    rw [Int.floor_natCast, Int.floor_natCast, Int.toNat_natCast, Int.toNat_natCast]
    simp [sub_self]
  · rename_i hcond
    by_cases h0 : t.data i j y x = 0
    · exact h0.symm
    · exact absurd (hM i j y x h0) hcond

/-- Python `int(n * 1.0 + 0.5)` is `n` for a natural `n`. -/
theorem pyInt_nat_scale_one (n : Nat) : pyInt ((n : ℚ) * 1 + 1 / 2) = (n : Int) := by
  unfold pyInt
  rw [if_pos (by positivity), mul_one]
  rw [show ((n : ℚ) + 1 / 2) = ((n : Int) : ℚ) + 1 / 2 by push_cast; ring]
  rw [Int.floor_int_add]
  norm_num

/-- At scale 1.0, when `crop_size[0]` is at most both image dimensions,
the scale loop's resize is the identity. -/
theorem augImgR_self (cs : Int × Int) (t : Tensor4) (hM : t.Masked)
    (hch : cs.1 ≤ (t.h : Int)) (hcw : cs.1 ≤ (t.w : Int)) :
    augImgR t.h t.w cs t 1 = t := by
  unfold augImgR
  dsimp only
  rw [pyInt_nat_scale_one, pyInt_nat_scale_one]
  rw [if_neg (by omega)]
  dsimp only
  rw [Int.toNat_natCast, Int.toNat_natCast]
  exact interpolate_self t hM

/-! ### Window-geometry lemmas -/

theorem rows_le_one_of_stride_nonpos (sz crop stride : Int) (hs : stride ≤ 0) :
    (rowsOf sz crop stride).toNat ≤ 1 := by
  unfold rowsOf
  split
  · simp
  · have h0 : (0 : Int) ≤ max (sz - crop + stride - 1) 0 := le_max_right _ _
    have := Int.fdiv_nonpos h0 hs
    omega

theorem win_facts (sz crop stride : Int) (r : Nat) (hsz : 0 ≤ sz) (hc : 0 < crop)
    (hr : r < (rowsOf sz crop stride).toNat) :
    0 ≤ winLo sz crop stride r ∧ winLo sz crop stride r ≤ winHi sz crop stride r ∧
      winHi sz crop stride r ≤ sz ∧
      (crop ≤ sz → winHi sz crop stride r - winLo sz crop stride r = crop) ∧
      (sz < crop → winLo sz crop stride r = 0 ∧ winHi sz crop stride r = sz) := by
  rcases le_or_lt stride 0 with hs | hs
  · have h1 := rows_le_one_of_stride_nonpos sz crop stride hs
    have hr0 : r = 0 := by omega
    subst hr0
    unfold winLo winHi
    simp only [Nat.cast_zero, zero_mul, zero_add]
    omega
  · have hrs : 0 ≤ (r : Int) * stride :=
      mul_nonneg (by positivity) (le_of_lt hs)
    unfold winLo winHi
    omega

theorem cover1D (sz crop stride : Int) (hs : 0 < stride) (hsc : stride ≤ crop)
    (y : Int) (hy0 : 0 ≤ y) (hy : y < sz) :
    ∃ r : Nat, r < (rowsOf sz crop stride).toNat ∧
      winLo sz crop stride r ≤ y ∧ y < winHi sz crop stride r := by
  rcases le_or_lt sz crop with hle | hlt
  · refine ⟨0, ?_, ?_, ?_⟩
    · unfold rowsOf; rw [if_pos hle]; omega
    · unfold winLo winHi; simp only [Nat.cast_zero, zero_mul, zero_add]; omega
    · unfold winHi; simp only [Nat.cast_zero, zero_mul, zero_add]; omega
  · have hmax : max (sz - crop + stride - 1) 0 = sz - crop + stride - 1 := by omega
    have hrows : rowsOf sz crop stride = (sz - crop + stride - 1) / stride + 1 := by
      unfold rowsOf
      rw [if_neg (by omega), hmax, Int.fdiv_eq_ediv _ (le_of_lt hs)]
    have hmd : (sz - crop + stride - 1) / stride * stride + (sz - crop + stride - 1) % stride
        = sz - crop + stride - 1 := by
      rw [mul_comm]; exact Int.ediv_add_emod _ _
    have hm1 : 0 ≤ (sz - crop + stride - 1) % stride := Int.emod_nonneg _ (ne_of_gt hs)
    have hm2 : (sz - crop + stride - 1) % stride < stride := Int.emod_lt_of_pos _ hs
    have hyd : y / stride * stride + y % stride = y := by
      rw [mul_comm]; exact Int.ediv_add_emod _ _
    have hy1 : 0 ≤ y % stride := Int.emod_nonneg _ (ne_of_gt hs)
    have hy2 : y % stride < stride := Int.emod_lt_of_pos _ hs
    have hq0 : 0 ≤ y / stride := Int.ediv_nonneg hy0 (le_of_lt hs)
    have hd0 : 0 ≤ (sz - crop + stride - 1) / stride :=
      Int.ediv_nonneg (by omega) (le_of_lt hs)
    rcases le_or_lt (y / stride) ((sz - crop + stride - 1) / stride) with hcase | hcase
    · refine ⟨(y / stride).toNat, ?_, ?_, ?_⟩
      · rw [hrows]; omega
      · unfold winLo winHi
        rw [Int.toNat_of_nonneg hq0]
        omega
      · unfold winHi
        rw [Int.toNat_of_nonneg hq0]
        omega
    · have hmul : ((sz - crop + stride - 1) / stride + 1) * stride ≤ y / stride * stride :=
        mul_le_mul_of_nonneg_right (by omega) (le_of_lt hs)
      have hexp : ((sz - crop + stride - 1) / stride + 1) * stride
          = (sz - crop + stride - 1) / stride * stride + stride := by ring
      refine ⟨((sz - crop + stride - 1) / stride).toNat, ?_, ?_, ?_⟩
      · rw [hrows]; omega
      · unfold winLo winHi
        rw [Int.toNat_of_nonneg hd0]
        omega
      · unfold winHi
        rw [Int.toNat_of_nonneg hd0]
        omega

theorem rows_min (sz crop stride : Int) (hs : 0 < stride) (hsz : 0 < sz) (n : Nat)
    (hcov : covers1D sz crop stride n) :
    (rowsOf sz crop stride).toNat ≤ n := by
  obtain ⟨r, hrn, _, hyhi⟩ := hcov (sz - 1) (by omega) (by omega)
  have hge : sz ≤ (r : Int) * stride + crop := by
    unfold winHi at hyhi; omega
  rcases le_or_lt sz crop with hle | hlt
  · unfold rowsOf; rw [if_pos hle]; omega
  · have hmax : max (sz - crop + stride - 1) 0 = sz - crop + stride - 1 := by omega
    have hrows : rowsOf sz crop stride = (sz - crop + stride - 1) / stride + 1 := by
      unfold rowsOf
      rw [if_neg (by omega), hmax, Int.fdiv_eq_ediv _ (le_of_lt hs)]
    have hmd : stride * ((sz - crop + stride - 1) / stride) + (sz - crop + stride - 1) % stride
        = sz - crop + stride - 1 := Int.ediv_add_emod _ _
    have hm1 : 0 ≤ (sz - crop + stride - 1) % stride := Int.emod_nonneg _ (ne_of_gt hs)
    have hm2 : (sz - crop + stride - 1) % stride < stride := Int.emod_lt_of_pos _ hs
    have hexp : stride * ((r : Int) + 1) = (r : Int) * stride + stride := by ring
    have h1 : stride * ((sz - crop + stride - 1) / stride) < stride * ((r : Int) + 1) := by
      omega
    have h2 : (sz - crop + stride - 1) / stride < (r : Int) + 1 :=
      Int.lt_of_mul_lt_mul_left h1 (le_of_lt hs)
    rw [hrows]
    omega

/-! ### Coverage-count lemmas -/

theorem countMap_factor (H W : Nat) (crop stride : Int × Int) (y x : Nat) :
    countMap H W crop stride y x =
      (∑ r ∈ Finset.range (rowsOf H crop.2 stride.2).toNat,
        if winLo H crop.2 stride.2 r ≤ (y : Int) ∧ (y : Int) < winHi H crop.2 stride.2 r
        then 1 else 0) *
      (∑ c ∈ Finset.range (rowsOf W crop.1 stride.1).toNat,
        if winLo W crop.1 stride.1 c ≤ (x : Int) ∧ (x : Int) < winHi W crop.1 stride.1 c
        then 1 else 0) := by
  unfold countMap
  rw [Finset.sum_mul_sum]
  refine Finset.sum_congr rfl fun r _ => Finset.sum_congr rfl fun c _ => ?_
  by_cases hA : winLo H crop.2 stride.2 r ≤ (y : Int) ∧ (y : Int) < winHi H crop.2 stride.2 r
  · by_cases hB : winLo W crop.1 stride.1 c ≤ (x : Int) ∧ (x : Int) < winHi W crop.1 stride.1 c
    · rw [if_pos ⟨hA.1, hA.2, hB.1, hB.2⟩, if_pos hA, if_pos hB]; rfl
    · rw [if_neg (by tauto), if_pos hA, if_neg hB, mul_zero]
  · rw [if_neg (by tauto), if_neg hA, zero_mul]

theorem countMap_pos (H W : Nat) (wc hc ws hs : Int)
    (hws : 0 < ws) (hhs : 0 < hs) (hwswc : ws ≤ wc) (hhshc : hs ≤ hc)
    (y x : Nat) (hy : y < H) (hx : x < W) :
    1 ≤ countMap H W (wc, hc) (ws, hs) y x := by
  rw [countMap_factor]
  obtain ⟨r, hr, hlo, hhi⟩ :=
    cover1D H hc hs hhs hhshc y (by positivity) (by exact_mod_cast hy)
  obtain ⟨c, hcn, hlo2, hhi2⟩ :=
    cover1D W wc ws hws hwswc x (by positivity) (by exact_mod_cast hx)
  have h1 : 1 ≤ ∑ r' ∈ Finset.range (rowsOf H hc hs).toNat,
      if winLo (H : Int) hc hs r' ≤ (y : Int) ∧ (y : Int) < winHi H hc hs r' then 1 else 0 := by
    refine le_trans ?_
      (Finset.single_le_sum (fun i _ => Nat.zero_le _) (Finset.mem_range.mpr hr))
    rw [if_pos ⟨hlo, hhi⟩]
  have h2 : 1 ≤ ∑ c' ∈ Finset.range (rowsOf W wc ws).toNat,
      if winLo (W : Int) wc ws c' ≤ (x : Int) ∧ (x : Int) < winHi W wc ws c' then 1 else 0 := by
    refine le_trans ?_
      (Finset.single_le_sum (fun i _ => Nat.zero_le _) (Finset.mem_range.mpr hcn))
    rw [if_pos ⟨hlo2, hhi2⟩]
  calc 1 = 1 * 1 := rfl
  _ ≤ _ := Nat.mul_le_mul h1 h2

/-! ### Pointwise-model and flip lemmas (for the flip-symmetry claim) -/

@[simp] theorem tmk_n (n c h w : Nat) (f : Nat → Nat → Nat → Nat → ℚ) : (tmk n c h w f).n = n := rfl

@[simp] theorem tmk_c (n c h w : Nat) (f : Nat → Nat → Nat → Nat → ℚ) : (tmk n c h w f).c = c := rfl

@[simp] theorem tmk_h (n c h w : Nat) (f : Nat → Nat → Nat → Nat → ℚ) : (tmk n c h w f).h = h := rfl

@[simp] theorem tmk_w (n c h w : Nat) (f : Nat → Nat → Nat → Nat → ℚ) : (tmk n c h w f).w = w := rfl

theorem tmk_data (n c h w : Nat) (f : Nat → Nat → Nat → Nat → ℚ) (i j y x : Nat) :
    (tmk n c h w f).data i j y x = if i < n ∧ j < c ∧ y < h ∧ x < w then f i j y x else 0 := rfl

theorem sum_range_map (C : Nat) (F : Nat → ℚ) :
    ((List.range C).map F).sum = ∑ c ∈ Finset.range C, F c := by
  induction C with
  | zero => simp
  | succ m ih => rw [List.range_succ]; simp [ih, Finset.sum_range_succ]

theorem sum_pairs (R C : Nat) (F : Nat × Nat → ℚ) :
    ((((List.range R).flatMap fun r => (List.range C).map fun c => (r, c)).map F)).sum
      = ∑ r ∈ Finset.range R, ∑ c ∈ Finset.range C, F (r, c) := by
  induction R with
  | zero => simp
  | succ n ih =>
    rw [List.range_succ]
    simp only [List.flatMap_append, List.map_append, List.sum_append, ih,
      Finset.sum_range_succ, List.flatMap_cons, List.flatMap_nil, List.append_nil,
      List.map_map, Function.comp, sum_range_map]

theorem foldl_tadd_data (f : Nat × Nat → Tensor4) (l : List (Nat × Nat)) (i j y x : Nat) :
    ∀ acc : Tensor4, i < acc.n → j < acc.c → y < acc.h → x < acc.w →
      (l.foldl (fun a p => tadd a (f p)) acc).data i j y x
        = acc.data i j y x + (l.map fun p => (f p).data i j y x).sum := by
  induction l with
  | nil => intro acc _ _ _ _; simp
  | cons p rest ih =>
    intro acc hi hj hy hx
    simp only [List.foldl_cons, List.map_cons, List.sum_cons]
    rw [ih (tadd acc (f p)) hi hj hy hx]
    simp only [tadd, tmk]
    rw [if_pos ⟨hi, hj, hy, hx⟩]
    ring

theorem amx_congr_of_iff_lt (f f2 : Nat → ℚ) (n : Nat)
    (hcmp : ∀ a, a < n → ∀ b, b < n → (f a < f b ↔ f2 a < f2 b)) : amx f2 n = amx f n := by
  unfold amx
  have key : ∀ (l : List Nat) (b : Nat), (∀ k ∈ l, k < n) → b < n →
      l.foldl (fun b k => if f2 b < f2 k then k else b) b
        = l.foldl (fun b k => if f b < f k then k else b) b := by
    intro l
    induction l with
    | nil => intro b _ _; rfl
    | cons hd tl ih =>
      intro b hmem hb
      have hhd : hd < n := hmem hd (by simp)
      simp only [List.foldl_cons]
      by_cases hlt : f b < f hd
      · rw [if_pos ((hcmp b hb hd hhd).mp hlt), if_pos hlt]
        exact ih hd (fun k hk => hmem k (by simp [hk])) hhd
      · rw [if_neg (fun h2 => hlt ((hcmp b hb hd hhd).mpr h2)), if_neg hlt]
        exact ih b (fun k hk => hmem k (by simp [hk])) hb
  cases n with
  | zero => rfl
  | succ m => exact key (List.range (m + 1)) 0 (fun k hk => List.mem_range.mp hk) (Nat.succ_pos m)

theorem argmax_tadd_self (a : Tensor4) (hM : a.Masked) :
    argmaxChan (tadd a a) = argmaxChan a := by
  unfold argmaxChan
  simp only [tadd, tmk_n, tmk_c, tmk_h, tmk_w, tmk_data]
  congr 1
  funext y x
  by_cases hyx : y < a.h ∧ x < a.w
  · rw [if_pos hyx, if_pos hyx]
    apply amx_congr_of_iff_lt
    intro p hp q hq
    by_cases hn : 0 < a.n
    · rw [if_pos ⟨hn, hp, hyx.1, hyx.2⟩, if_pos ⟨hn, hq, hyx.1, hyx.2⟩]
      constructor <;> intro h <;> linarith
    · have hz : ∀ k, a.data 0 k y x = 0 := by
        intro k
        by_contra hne
        exact hn (hM 0 k y x hne).1
      rw [if_neg (by tauto), if_neg (by tauto), hz p, hz q]
  · rw [if_neg hyx, if_neg hyx]

theorem tadd_dbl (a l : Tensor4) :
    tadd (tadd (tadd a a) l) l = tadd (tadd a l) (tadd a l) := by
  refine t4ext _ _ rfl rfl rfl rfl ?_
  intro i j y x
  simp only [tadd, tmk_n, tmk_c, tmk_h, tmk_w, tmk_data]
  by_cases hb : i < a.n ∧ j < a.c ∧ y < a.h ∧ x < a.w
  · simp only [if_pos hb]
    ring
  · simp only [if_neg hb]

theorem thflip_pwT (g : Nat → ℚ → ℚ) (nc : Nat) (z : Tensor4) (hn : 0 < z.n)
    (hc : 0 < z.c) : thflip (pwT g nc (thflip z)) = pwT g nc z := by
  refine t4ext _ _ rfl rfl rfl rfl ?_
  intro i j y x
  simp only [thflip, pwT, tmk_n, tmk_c, tmk_h, tmk_w, tmk_data]
  by_cases hb : i < 1 ∧ j < nc ∧ y < z.h ∧ x < z.w
  · rw [if_pos hb, if_pos hb]
    have hw1 : z.w - 1 - x < z.w := by omega
    rw [if_pos ⟨hb.1, hb.2.1, hb.2.2.1, hw1⟩, if_pos ⟨hn, hc, hb.2.2.1, hw1⟩]
    rw [show z.w - 1 - (z.w - 1 - x) = x by omega]
  · rw [if_neg hb, if_neg hb]

theorem tsum0_thflip (t : Tensor4) (hn : 0 < t.n) (hc : 0 < t.c) :
    tsum0 (thflip t) = tsum0 t := by
  unfold tsum0
  simp only [thflip, tmk_h, tmk_w, tmk_data]
  refine Finset.sum_congr rfl fun y hy => ?_
  conv_rhs => rw [← Finset.sum_range_reflect (fun x => t.data 0 0 y x) t.w]
  refine Finset.sum_congr rfl fun x hx => ?_
  rw [if_pos ⟨hn, hc, Finset.mem_range.mp hy, Finset.mem_range.mp hx⟩]

theorem cModel8_equivariant : ∀ t : Tensor4, t.Masked → 0 < t.n → 0 < t.c →
    cModel8 (thflip t) = (cModel8 t).map thflip := by
  intro t hM hn hc
  unfold cModel8
  simp only [List.map_cons, List.map_nil]
  rw [show (thflip t).h = t.h from rfl, show (thflip t).w = t.w from rfl,
    tsum0_thflip t hn hc]
  congr 1
  refine t4ext _ _ rfl rfl rfl rfl ?_
  intro i j y x
  simp only [thflip, tmk_n, tmk_c, tmk_h, tmk_w, tmk_data]
  by_cases hb : i < 1 ∧ j < 2 ∧ y < t.h ∧ x < t.w
  · rw [if_pos hb, if_pos hb]
    have hw1 : t.w - 1 - x < t.w := by omega
    rw [if_pos ⟨hn, hc, hb.2.2.1, hb.2.2.2⟩, if_pos ⟨hb.1, hb.2.1, hb.2.2.1, hw1⟩]
  · rw [if_neg hb, if_neg hb]

theorem padContrib_data (g : Nat → ℚ → ℚ) (nc : Nat) (img : Tensor4) (cs ss : Int × Int)
    (r c : Nat) (i j y x : Nat)
    (hn : 0 < img.n) (hc0 : 0 < img.c)
    (hH1 : 0 ≤ winLo img.h cs.2 ss.2 r)
    (hH2 : winLo img.h cs.2 ss.2 r ≤ winHi img.h cs.2 ss.2 r)
    (hH3 : winHi img.h cs.2 ss.2 r ≤ (img.h : Int))
    (hW1 : 0 ≤ winLo img.w cs.1 ss.1 c)
    (hW2 : winLo img.w cs.1 ss.1 c ≤ winHi img.w cs.1 ss.1 c)
    (hW3 : winHi img.w cs.1 ss.1 c ≤ (img.w : Int))
    (hi : i < 1) (hj : j < nc) (hy : y < img.h) (hx : x < img.w) :
    (padContrib g nc img cs ss (r, c)).data i j y x
      = if winLo img.h cs.2 ss.2 r ≤ (y : Int) ∧ (y : Int) < winHi img.h cs.2 ss.2 r ∧
            winLo img.w cs.1 ss.1 c ≤ (x : Int) ∧ (x : Int) < winHi img.w cs.1 ss.1 c
        then g j (img.data 0 0 y x) else 0 := by
  unfold padContrib tpad pwT tcrop
  simp only [tmk_n, tmk_c, tmk_h, tmk_w, tmk_data]
  rw [if_pos ⟨hi, hj, by omega, by omega⟩]
  by_cases hcond : winLo img.h cs.2 ss.2 r ≤ (y : Int) ∧ (y : Int) < winHi img.h cs.2 ss.2 r ∧
      winLo img.w cs.1 ss.1 c ≤ (x : Int) ∧ (x : Int) < winHi img.w cs.1 ss.1 c
  · rw [if_pos hcond]
    obtain ⟨hcyl, hcyh, hcxl, hcxh⟩ := hcond
    rw [if_pos ⟨by omega, by omega⟩]
    rw [if_pos ⟨hi, hj, by omega, by omega⟩]
    rw [if_pos ⟨hn, hc0, by omega, by omega⟩]
    rw [show (winLo (img.h : Int) cs.2 ss.2 r).toNat
        + (y - (winLo (img.h : Int) cs.2 ss.2 r).toNat) = y by omega]
    rw [show (winLo (img.w : Int) cs.1 ss.1 c).toNat
        + (x - (winLo (img.w : Int) cs.1 ss.1 c).toNat) = x by omega]
  · rw [if_neg hcond]
    split
    · rename_i hTL
      split
      · rename_i hmask
        exact absurd ⟨by omega, by omega, by omega, by omega⟩ hcond
      · rfl
    · rfl

theorem foldl_slideStep_pw (g : Nat → ℚ → ℚ) (nc : Nat) (img : Tensor4) (cs ss : Int × Int) :
    ∀ (l : List (Nat × Nat)) (tr : List Tensor4) (acc : Tensor4),
      l.foldl (slideStep (fun t => [pwT g nc t]) img cs ss nc) (.ok (tr, acc))
        = .ok (tr ++ l.map (fun p => tcrop img (winLo img.h cs.2 ss.2 p.1)
              (winHi img.h cs.2 ss.2 p.1) (winLo img.w cs.1 ss.1 p.2)
              (winHi img.w cs.1 ss.1 p.2)),
            l.foldl (fun a p => tadd a (padContrib g nc img cs ss p)) acc) := by
  intro l
  induction l with
  | nil => intro tr acc; simp
  | cons p rest ih =>
    intro tr acc
    simp only [List.foldl_cons, List.map_cons]
    have hstep : slideStep (fun t => [pwT g nc t]) img cs ss nc (.ok (tr, acc)) p
        = .ok (tr ++ [tcrop img (winLo img.h cs.2 ss.2 p.1) (winHi img.h cs.2 ss.2 p.1)
              (winLo img.w cs.1 ss.1 p.2) (winHi img.w cs.1 ss.1 p.2)],
            tadd acc (padContrib g nc img cs ss p)) := by
      unfold slideStep padContrib
      dsimp only
      simp only [List.head?_cons]
      rw [if_pos ⟨rfl, rfl, rfl, rfl⟩]
    rw [hstep, ih]
    simp

theorem slide_pw (g : Nat → ℚ → ℚ) (nc : Nat) (img : Tensor4) (cs ss : Int × Int)
    (hn : 0 < img.n) (hc0 : 0 < img.c)
    (hws : 0 < ss.1) (hhs : 0 < ss.2) (hwswc : ss.1 ≤ cs.1) (hhshc : ss.2 ≤ cs.2) :
    (slide_run (fun t => [pwT g nc t]) img cs ss nc).2 = .ok (pwT g nc img) := by
  unfold slide_run
  rw [if_neg (by omega)]
  dsimp only
  rw [foldl_slideStep_pw]
  dsimp only
  congr 1
  refine t4ext _ _ rfl rfl rfl rfl ?_
  intro i j y x
  simp only [pwT, tmk_data]
  by_cases hb : i < 1 ∧ j < nc ∧ y < img.h ∧ x < img.w
  · rw [if_pos hb, if_pos hb]
    rw [foldl_tadd_data (padContrib g nc img cs ss) _ i j y x (tzeros 1 nc img.h img.w)
      hb.1 hb.2.1 hb.2.2.1 hb.2.2.2]
    have htz : (tzeros 1 nc img.h img.w).data i j y x = 0 := by
      simp [tzeros, tmk_data]
    rw [htz, zero_add]
    have hkey : ((((List.range (rowsOf img.h cs.2 ss.2).toNat).flatMap fun r =>
          (List.range (rowsOf img.w cs.1 ss.1).toNat).map fun c => (r, c)).map
            fun p => (padContrib g nc img cs ss p).data i j y x)).sum
        = (countMap img.h img.w cs ss y x : ℚ) * g j (img.data 0 0 y x) := by
      rw [sum_pairs]
      have hcrop2 : 0 < cs.2 := by omega
      have hcrop1 : 0 < cs.1 := by omega
      have hstep2 : ∀ r ∈ Finset.range (rowsOf img.h cs.2 ss.2).toNat,
          ∀ c ∈ Finset.range (rowsOf img.w cs.1 ss.1).toNat,
          (padContrib g nc img cs ss (r, c)).data i j y x
            = if winLo img.h cs.2 ss.2 r ≤ (y : Int) ∧ (y : Int) < winHi img.h cs.2 ss.2 r ∧
                  winLo img.w cs.1 ss.1 c ≤ (x : Int) ∧ (x : Int) < winHi img.w cs.1 ss.1 c
              then g j (img.data 0 0 y x) else 0 := by
        intro r hr c hcm
        obtain ⟨e1, e2, e3, _, _⟩ :=
          win_facts img.h cs.2 ss.2 r (by omega) hcrop2 (Finset.mem_range.mp hr)
        obtain ⟨e4, e5, e6, _, _⟩ :=
          win_facts img.w cs.1 ss.1 c (by omega) hcrop1 (Finset.mem_range.mp hcm)
        exact padContrib_data g nc img cs ss r c i j y x hn hc0 e1 e2 e3 e4 e5 e6
          hb.1 hb.2.1 hb.2.2.1 hb.2.2.2
      rw [Finset.sum_congr rfl fun r hr => Finset.sum_congr rfl fun c hcm => hstep2 r hr c hcm]
      unfold countMap
      push_cast
      rw [Finset.sum_mul]
      refine Finset.sum_congr rfl fun r _ => ?_
      rw [Finset.sum_mul]
      refine Finset.sum_congr rfl fun c _ => ?_
      split <;> simp
    rw [hkey]
    have hcount : 1 ≤ countMap img.h img.w cs ss y x :=
      countMap_pos img.h img.w cs.1 cs.2 ss.1 ss.2 hws hhs hwswc hhshc y x
        hb.2.2.1 hb.2.2.2
    have hcpos : (0 : ℚ) < (countMap img.h img.w cs ss y x : ℚ) := by
      exact_mod_cast lt_of_lt_of_le Nat.zero_lt_one hcount
    rw [mul_comm, mul_div_assoc, div_self (ne_of_gt hcpos), mul_one]
  · rw [if_neg hb, if_neg hb]

theorem augStep_pw (e : ℚ → ℚ) (g : Nat → ℚ → ℚ) (nc : Nat) (os : Nat × Nat)
    (ss cs : Int × Int) (hin win : Nat) (fh : Bool) (s : AugState) (sc : ℚ)
    (hn : 0 < s.img.n) (hc0 : 0 < s.img.c)
    (hws : 0 < ss.1) (hhs : 0 < ss.2) (hwswc : ss.1 ≤ cs.1) (hhshc : ss.2 ≤ cs.2) :
    ∃ tr' : List Tensor4,
      augStep e (fun t => [pwT g nc t]) os ss cs nc hin win fh (.ok s) sc
        = .ok ⟨augImgR hin win cs s.img sc,
            some (if fh
              then tadd (addAcc s.acc (softmax e (interpolate
                  (pwT g nc (augImgR hin win cs s.img sc)) os.1 os.2)))
                (softmax e (interpolate (pwT g nc (augImgR hin win cs s.img sc)) os.1 os.2))
              else addAcc s.acc (softmax e (interpolate
                  (pwT g nc (augImgR hin win cs s.img sc)) os.1 os.2))),
            tr'⟩ := by
  have hJn : 0 < (augImgR hin win cs s.img sc).n := hn
  have hJc : 0 < (augImgR hin win cs s.img sc).c := hc0
  unfold augStep
  dsimp only
  rcases hsr : slide_run (fun t => [pwT g nc t]) (augImgR hin win cs s.img sc) cs ss nc
    with ⟨trJ, resJ⟩
  have h1 := slide_pw g nc (augImgR hin win cs s.img sc) cs ss hJn hJc hws hhs hwswc hhshc
  rw [hsr] at h1
  dsimp only at h1
  subst h1
  cases fh with
  | false => exact ⟨s.trace ++ trJ, rfl⟩
  | true =>
    dsimp only
    rcases hsr2 : slide_run (fun t => [pwT g nc t]) (thflip (augImgR hin win cs s.img sc))
        cs ss nc with ⟨trF, resF⟩
    have h2 := slide_pw g nc (thflip (augImgR hin win cs s.img sc)) cs ss hJn hJc
      hws hhs hwswc hhshc
    rw [hsr2] at h2
    dsimp only at h2
    subst h2
    dsimp only
    rw [thflip_pwT g nc (augImgR hin win cs s.img sc) hJn hJc]
    exact ⟨s.trace ++ trJ ++ trF, rfl⟩

/-- Claim C8, corrected: for a model that computes its logits pixelwise
from the image — in particular one invariant under horizontal mirroring,
such as an identity-logit stub — and positive strides no larger than the
crop sizes, enabling `flip_horizontal` does not change the final
Prediction Map of `aug_inference`: each flipped pass contributes exactly
the per-scale probability map again, so the accumulator is doubled and
the argmax is unchanged.  For a merely mirror-equivariant model whose
output depends on the whole window the claim fails, because the clamped
window grid is not mirror-symmetric (see `aug_flip_symmetry_cex`). -/
theorem aug_flip_symmetry (e : ℚ → ℚ) (g : Nat → ℚ → ℚ) (model : Tensor4 → List Tensor4)
    (img : Tensor4) (os : Nat × Nat) (tr : List Unit) (isl : Bool) (ss cs : Int × Int)
    (nc : Nat) (scales : List ℚ)
    (hmodel : ∀ t, model t = [pwT g nc t])
    (hn : 0 < img.n) (hc0 : 0 < img.c)
    (hws : 0 < ss.1) (hhs : 0 < ss.2) (hwswc : ss.1 ≤ cs.1) (hhshc : ss.2 ≤ cs.2) :
    aug_inference e model img os tr isl ss cs nc (.list scales) true false
      = aug_inference e model img os tr isl ss cs nc (.list scales) false false := by
  have hmeq : model = fun t => [pwT g nc t] := funext hmodel
  subst hmeq
  unfold aug_inference aug_run
  dsimp only
  suffices key : ∀ (l : List ℚ) (s1 s2 : AugState), s1.img = s2.img →
      0 < s2.img.n → 0 < s2.img.c →
      (s1.acc = none ∧ s2.acc = none ∨
        ∃ a, s2.acc = some a ∧ s1.acc = some (tadd a a) ∧ a.Masked) →
      ∃ s1' s2',
        l.foldl (augStep e (fun t => [pwT g nc t]) os ss cs nc img.h img.w true)
            (.ok s1) = .ok s1' ∧
        l.foldl (augStep e (fun t => [pwT g nc t]) os ss cs nc img.h img.w false)
            (.ok s2) = .ok s2' ∧
        s1'.img = s2'.img ∧ 0 < s2'.img.n ∧ 0 < s2'.img.c ∧
        (s1'.acc = none ∧ s2'.acc = none ∨
          ∃ a, s2'.acc = some a ∧ s1'.acc = some (tadd a a) ∧ a.Masked) by
    obtain ⟨s1', s2', h1, h2, _, _, _, hrel⟩ :=
      key scales ⟨img, none, []⟩ ⟨img, none, []⟩ rfl hn hc0 (Or.inl ⟨rfl, rfl⟩)
    rw [h1, h2]
    dsimp only
    rcases hrel with ⟨ha1, ha2⟩ | ⟨a, ha2, ha1, haM⟩
    · rw [ha1, ha2]
    · rw [ha1, ha2]
      dsimp only
      rw [argmax_tadd_self a haM]
  intro l
  induction l with
  | nil =>
    intro s1 s2 himg hn2 hc2 hrel
    exact ⟨s1, s2, rfl, rfl, himg, hn2, hc2, hrel⟩
  | cons sc rest ih =>
    intro s1 s2 himg hn2 hc2 hrel
    simp only [List.foldl_cons]
    obtain ⟨trT, hstepT⟩ := augStep_pw e g nc os ss cs img.h img.w true s1 sc
      (by rw [himg]; exact hn2) (by rw [himg]; exact hc2) hws hhs hwswc hhshc
    obtain ⟨trF, hstepF⟩ := augStep_pw e g nc os ss cs img.h img.w false s2 sc
      hn2 hc2 hws hhs hwswc hhshc
    rw [hstepT, hstepF, himg]
    refine ih _ _ rfl hn2 hc2 ?_
    rcases hrel with ⟨ha1, ha2⟩ | ⟨a, ha2, ha1, haM⟩
    · rw [ha1, ha2]
      refine Or.inr ⟨softmax e (interpolate (pwT g nc (augImgR img.h img.w cs s2.img sc))
          os.1 os.2), rfl, ?_, ?_⟩
      · rfl
      · exact tmk_masked _ _ _ _ _
    · rw [ha1, ha2]
      refine Or.inr ⟨tadd a (softmax e (interpolate
          (pwT g nc (augImgR img.h img.w cs s2.img sc)) os.1 os.2)), rfl, ?_, ?_⟩
      · exact congrArg some (tadd_dbl a _)
      · exact tmk_masked _ _ _ _ _

theorem aug_flip_symmetry_witness :
    aug_inference pexp (fun t => [pwT gW 2 t]) cImg8 (2, 5) [] true (2, 2) (2, 2) 2
        (.list [1]) true false
      = aug_inference pexp (fun t => [pwT gW 2 t]) cImg8 (2, 5) [] true (2, 2) (2, 2) 2
        (.list [1]) false false :=
  aug_flip_symmetry pexp gW (fun t => [pwT gW 2 t]) cImg8 (2, 5) [] true (2, 2) (2, 2) 2
    [1] (fun _ => rfl) (by decide) (by decide) (by decide) (by decide) (by decide)
    (by decide)

set_option maxRecDepth 100000 in
/-- Claim C8, counterexample: the model `cModel8` is equivariant under
horizontal mirroring on every (well-formed) input, yet on the
palindromic 2×5 image `cImg8` with crop (2,2) and stride (2,2) the
window grid {[0,2), [2,4), [3,5)} is not mirror-symmetric, so the
flipped pass averages different windows and flips the prediction at
pixel (0,1) from class 0 to class 1. -/
theorem aug_flip_symmetry_cex :
    ¬ ∀ (e : ℚ → ℚ) (model : Tensor4 → List Tensor4) (img : Tensor4) (os : Nat × Nat)
        (tr : List Unit) (isl : Bool) (ss cs : Int × Int) (nc : Nat) (scales : List ℚ),
        img.Masked →
        (∀ t : Tensor4, t.Masked → 0 < t.n → 0 < t.c →
          model (thflip t) = (model t).map thflip) →
        aug_inference e model img os tr isl ss cs nc (.list scales) true false
          = aug_inference e model img os tr isl ss cs nc (.list scales) false false := by
  intro hclaim
  have h := hclaim pexp cModel8 cImg8 (2, 5) [] true (2, 2) (2, 2) 2 [1]
    (tmk_masked 1 1 2 5 _) cModel8_equivariant
  have h1 : ((aug_inference pexp cModel8 cImg8 (2, 5) [] true (2, 2) (2, 2) 2
      (.list [1]) true false).toOption.map fun p => p.data 0 1) = some 1 := by
    with_unfolding_all rfl
  rw [h] at h1
  have h0 : ((aug_inference pexp cModel8 cImg8 (2, 5) [] true (2, 2) (2, 2) 2
      (.list [1]) false false).toOption.map fun p => p.data 0 1) = some 0 := by
    with_unfolding_all rfl
  rw [h0] at h1
  exact absurd h1 (by decide)

/-- Claim C1, corrected: with positive crop and stride no larger than the
image (the claim's hypotheses) and additionally each stride no larger
than the corresponding crop, every pixel's Coverage Count Map entry
after the tiling pass of `slide_inference` is at least 1.  The extra
hypothesis is forced by `slide_coverage_cex`. -/
theorem slide_coverage_complete (H W : Nat) (wc hc ws hs : Int)
    (hwc : 0 < wc) (hhc : 0 < hc) (hws : 0 < ws) (hhs : 0 < hs)
    (hwcW : wc ≤ (W : Int)) (hhcH : hc ≤ (H : Int))
    (hwsW : ws ≤ (W : Int)) (hhsH : hs ≤ (H : Int))
    (hwswc : ws ≤ wc) (hhshc : hs ≤ hc) :
    ∀ y : Nat, y < H → ∀ x : Nat, x < W → 1 ≤ countMap H W (wc, hc) (ws, hs) y x :=
  fun y hy x hx => countMap_pos H W wc hc ws hs hws hhs hwswc hhshc y x hy hx

theorem slide_coverage_complete_witness : 1 ≤ countMap 10 10 (4, 4) (4, 4) 9 9 :=
  slide_coverage_complete 10 10 4 4 4 4 (by decide) (by decide) (by decide) (by decide)
    (by decide) (by decide) (by decide) (by decide) (by decide) (by decide) 9 (by decide)
    9 (by decide)

/-- Claim C1, counterexample: a 10×10 image with crop (2,2) and stride
(5,5) — positive and no larger than the image, as the claim requires —
leaves pixel (0,2) with Coverage Count Map entry 0: strides larger than
the crop leave gaps between windows. -/
theorem slide_coverage_cex :
    (0 < (2 : Int) ∧ 0 < (5 : Int) ∧ (2 : Int) ≤ (10 : Int) ∧ (5 : Int) ≤ (10 : Int)) ∧
      (0 < 10 ∧ 2 < 10) ∧ countMap 10 10 (2, 2) (5, 5) 0 2 = 0 := by
  decide

/-- Claim C2: for a non-sequence `scales` value, `aug_inference` raises
before any model invocation (the trace is empty) — but because the code
executes `raise('...')` on a `str`, the error actually observed is
Python's `TypeError("exceptions must derive from BaseException")`, a
fixed message that does not name the received type; a value of any other
non-sequence type produces the identical error. -/
theorem aug_scales_string_raise (e : ℚ → ℚ) (model : Tensor4 → List Tensor4) (img : Tensor4)
    (os : Nat × Nat) (tr : List Unit) (isl : Bool) (ss cs : Int × Int) (nc : Nat)
    (fh fv : Bool) (s : String) :
    aug_run e model img os tr isl ss cs nc (.str s) fh fv
        = ([], .error (.typeError "exceptions must derive from BaseException")) ∧
      (PyScales.str s).pyTypeName = "str" ∧
      aug_run e model img os tr isl ss cs nc (.other "float") fh fv
        = ([], .error (.typeError "exceptions must derive from BaseException")) :=
  ⟨rfl, rfl, rfl⟩

/-- Claim C3, corrected: with `scales=[1.0]` and both flips disabled,
`aug_inference` equals `inference` with `is_slide=True` — provided
`crop_size[0]` is at most both image dimensions.  Otherwise the scale
loop resizes the image so its shorter edge matches `crop_size[0]` while
`inference` runs on the original (see `aug_identity_scale_cex`). -/
theorem aug_identity_scale (e : ℚ → ℚ) (model : Tensor4 → List Tensor4) (img : Tensor4)
    (os : Nat × Nat) (tr : List Unit) (isl : Bool) (ss cs : Int × Int) (nc : Nat)
    (hM : img.Masked) (hch : cs.1 ≤ (img.h : Int)) (hcw : cs.1 ≤ (img.w : Int)) :
    aug_inference e model img os tr isl ss cs nc (.list [1]) false false
      = Except.map InferOut.predD (inference e model img (some os) tr true ss cs nc) := by
  unfold aug_inference aug_run
  dsimp only
  rw [List.foldl_cons, List.foldl_nil]
  unfold augStep
  dsimp only
  rw [augImgR_self cs img hM hch hcw]
  unfold inference inference_run
  rw [if_pos rfl]
  rcases hside : slide_run model img cs ss nc with ⟨trs, res⟩
  cases res with
  | error er => rfl
  | ok t => rfl

theorem aug_identity_scale_witness :
    aug_inference pexp wModel wImg (2, 2) [] true (2, 2) (2, 2) 1 (.list [1]) false false
      = Except.map InferOut.predD
          (inference pexp wModel wImg (some (2, 2)) [] true (2, 2) (2, 2) 1) :=
  aug_identity_scale pexp wModel wImg (2, 2) [] true (2, 2) (2, 2) 1
    (tmk_masked 1 1 2 2 _) (by decide) (by decide)

/-- Claim C3, counterexample: for the 2×3 image `cImg3` (shorter edge 2)
with `crop_size=(4,4)`, the scale-1.0 augmented path first upsamples the
image to 4×6, so at pixel (0,0) it predicts class 0 while single-pass
inference on the original image predicts class 1. -/
theorem aug_identity_scale_cex :
    ((aug_inference pexp cModel3 cImg3 (2, 3) [] true (4, 4) (4, 4) 2 (.list [1])
        false false).toOption.map fun p => p.data 0 0) = some 0 ∧
      ((inference pexp cModel3 cImg3 (some (2, 3)) [] true (4, 4) (4, 4) 2).toOption.map
        fun o => (InferOut.predD o).data 0 0) = some 1 := by
  constructor
  · with_unfolding_all rfl
  · with_unfolding_all rfl

/-- Claim C4: if the image is no larger than the crop in both dimensions
(and the strides are nonzero, so that the `rows`/`cols` divisions
succeed), `slide_inference` passes exactly one window to the model —
the whole image — and returns the first output tensor of that direct
whole-image model call. -/
theorem slide_single_window (model : Tensor4 → List Tensor4) (img : Tensor4)
    (cs ss : Int × Int) (nc : Nat) (lg : Tensor4)
    (hM : img.Masked) (hih : (img.h : Int) ≤ cs.2) (hiw : (img.w : Int) ≤ cs.1)
    (hs2 : ss.2 ≠ 0) (hs1 : ss.1 ≠ 0)
    (hout : (model img).head? = some lg)
    (hn : lg.n = 1) (hc : lg.c = nc) (hlh : lg.h = img.h) (hlw : lg.w = img.w) :
    (slide_run model img cs ss nc).1 = [img] ∧
      ∃ t, (slide_run model img cs ss nc).2 = .ok t ∧ teq t lg := by
  have hr1 : (rowsOf img.h cs.2 ss.2).toNat = 1 := by
    unfold rowsOf; rw [if_pos hih]; rfl
  have hc1 : (rowsOf img.w cs.1 ss.1).toNat = 1 := by
    unfold rowsOf; rw [if_pos hiw]; rfl
  have hwinH2 : winHi (img.h : Int) cs.2 ss.2 0 = (img.h : Int) := by
    unfold winHi; simp only [Nat.cast_zero, zero_mul, zero_add]; omega
  have hwinH1 : winLo (img.h : Int) cs.2 ss.2 0 = 0 := by
    unfold winLo; rw [hwinH2]; omega
  have hwinW2 : winHi (img.w : Int) cs.1 ss.1 0 = (img.w : Int) := by
    unfold winHi; simp only [Nat.cast_zero, zero_mul, zero_add]; omega
  have hwinW1 : winLo (img.w : Int) cs.1 ss.1 0 = 0 := by
    unfold winLo; rw [hwinW2]; omega
  have hcount : ∀ y : Nat, y < img.h → ∀ x : Nat, x < img.w →
      countMap img.h img.w cs ss y x = 1 := by
    intro y hy x hx
    unfold countMap
    rw [hr1, hc1]
    simp only [Finset.sum_range_one]
    rw [if_pos]
    refine ⟨?_, ?_, ?_, ?_⟩
    · rw [hwinH1]; positivity
    · rw [hwinH2]; exact_mod_cast hy
    · rw [hwinW1]; positivity
    · rw [hwinW2]; exact_mod_cast hx
  have hstep : slideStep model img cs ss nc (.ok ([], tzeros 1 nc img.h img.w)) (0, 0)
      = .ok ([img], tadd (tzeros 1 nc img.h img.w) (tpad lg 0 0 0 0)) := by
    unfold slideStep
    dsimp only
    rw [hwinH2, hwinH1, hwinW2, hwinW1, tcrop_full img hM, hout]
    dsimp only
    rw [if_pos ⟨hn, hc, by rw [hlh]; simp, by rw [hlw]; simp⟩]
    simp
  unfold slide_run
  rw [if_neg (by tauto)]
  dsimp only
  rw [hr1, hc1]
  rw [show ((List.range 1).flatMap fun r => (List.range 1).map fun c => (r, c))
      = [(0, 0)] from rfl]
  rw [List.foldl_cons, List.foldl_nil, hstep]
  refine ⟨rfl, _, rfl, ⟨hn.symm, hc.symm, hlh.symm, hlw.symm, ?_⟩⟩
  intro i hi j hj y hy x hx
  simp only [tmk] at hi hj hy hx ⊢
  rw [if_pos ⟨hi, hj, hy, hx⟩, hcount y hy x hx]
  have h1 : i < lg.n := by omega
  have h2 : j < lg.c := by omega
  have h3 : y < lg.h := by omega
  have h4 : x < lg.w := by omega
  simp only [tadd, tzeros, tpad, tmk, Nat.add_zero, ite_self, Nat.sub_zero,
    Nat.cast_one, zero_add, div_one]
  rw [if_pos ⟨hi, hj, hy, hx⟩, if_pos ⟨h1, h2, h3, h4⟩,
    if_pos ⟨Nat.zero_le y, Nat.zero_le x⟩]

theorem slide_single_window_witness :
    (slide_run wModel wImg (2, 2) (2, 2) 1).1 = [wImg] ∧
      ∃ t, (slide_run wModel wImg (2, 2) (2, 2) 1).2 = .ok t ∧
        teq t (tmk 1 1 wImg.h wImg.w fun _ _ y x => wImg.data 0 0 y x + 7) :=
  slide_single_window wModel wImg (2, 2) (2, 2) 1
    (tmk 1 1 wImg.h wImg.w fun _ _ y x => wImg.data 0 0 y x + 7)
    (tmk_masked 1 1 2 2 _) (by decide) (by decide) (by decide) (by decide)
    rfl rfl rfl rfl rfl

/-- Claim C5: every window of the `slide_inference` grid lies within the
image bounds, has exactly the crop size in a dimension where the image
is at least as large as the crop, and spans the whole dimension where
the image is smaller (windows are shifted inward, never shrunk). -/
theorem slide_window_geometry (H W : Nat) (wc hc ws hs : Int)
    (hhc : 0 < hc) (hwc : 0 < wc) (r c : Nat)
    (hr : r < (rowsOf H hc hs).toNat) (hcn : c < (rowsOf W wc ws).toNat) :
    (0 ≤ winLo (H : Int) hc hs r ∧ winLo (H : Int) hc hs r ≤ winHi H hc hs r ∧
        winHi (H : Int) hc hs r ≤ H ∧
        (hc ≤ (H : Int) → winHi (H : Int) hc hs r - winLo H hc hs r = hc) ∧
        ((H : Int) < hc → winLo (H : Int) hc hs r = 0 ∧ winHi (H : Int) hc hs r = H)) ∧
      (0 ≤ winLo (W : Int) wc ws c ∧ winLo (W : Int) wc ws c ≤ winHi W wc ws c ∧
        winHi (W : Int) wc ws c ≤ W ∧
        (wc ≤ (W : Int) → winHi (W : Int) wc ws c - winLo W wc ws c = wc) ∧
        ((W : Int) < wc → winLo (W : Int) wc ws c = 0 ∧ winHi (W : Int) wc ws c = W)) :=
  ⟨win_facts H hc hs r (by omega) hhc hr, win_facts W wc ws c (by omega) hwc hcn⟩

theorem slide_window_geometry_witness : 0 ≤ winLo (10 : Int) 4 4 2 ∧ winHi (10 : Int) 4 4 2 ≤ 10 :=
  ⟨(slide_window_geometry 10 10 4 4 4 4 (by decide) (by decide) 2 2 (by decide) (by decide)).1.1,
   (slide_window_geometry 10 10 4 4 4 4 (by decide) (by decide) 2 2 (by decide)
      (by decide)).1.2.2.1⟩

/-- Claim C6: the window-count formula of `slide_inference`, the forced
single window for an image no larger than the crop, its minimality (no
smaller count covers the dimension; the placement covers it whenever the
stride is at most the crop), and the (1,3,10,10) example with
crop=(4,4), stride=(4,4): rows = cols = 3 and every pixel covered. -/
theorem slide_grid_count (sz crop stride : Int) (hs : 0 < stride) (hsz : 0 < sz) :
    rowsOf sz crop stride
        = (if sz ≤ crop then 1 else (max (sz - crop + stride - 1) 0).fdiv stride + 1) ∧
      (sz ≤ crop → rowsOf sz crop stride = 1) ∧
      (stride ≤ crop → covers1D sz crop stride (rowsOf sz crop stride).toNat) ∧
      (∀ n : Nat, covers1D sz crop stride n → (rowsOf sz crop stride).toNat ≤ n) ∧
      (rowsOf 10 4 4 = 3 ∧
        ∀ y : Nat, y < 10 → ∀ x : Nat, x < 10 → 1 ≤ countMap 10 10 (4, 4) (4, 4) y x) := by
  refine ⟨rfl, ?_, ?_, ?_, by decide, by decide⟩
  · intro h; unfold rowsOf; rw [if_pos h]
  · intro hsc y hy0 hy; exact cover1D sz crop stride hs hsc y hy0 hy
  · exact fun n hcov => rows_min sz crop stride hs hsz n hcov

theorem slide_grid_count_witness : rowsOf 10 4 4 = 3 :=
  (slide_grid_count 10 4 4 (by decide) (by decide)).2.2.2.2.1

/-- Claim C7: whenever `slide_inference` returns a Logit Map, that map
has shape (1, num_classes, H, W) for the input image's spatial size
(H, W), for every crop and stride choice. -/
theorem slide_output_shape (model : Tensor4 → List Tensor4) (img : Tensor4)
    (crop_size stride_size : Int × Int) (num_classes : Nat) (t : Tensor4)
    (h : (slide_run model img crop_size stride_size num_classes).2 = .ok t) :
    t.n = 1 ∧ t.c = num_classes ∧ t.h = img.h ∧ t.w = img.w := by
  unfold slide_run at h
  split at h
  · exact absurd h (by simp)
  · dsimp only at h
    split at h
    · exact absurd h (by simp)
    · simp only [Except.ok.injEq] at h
      subst h
      exact ⟨rfl, rfl, rfl, rfl⟩

theorem slide_output_shape_witness :
    ((slide_run wModel wImg (2, 2) (2, 2) 1).2.toOption.map fun t => (t.n, t.c, t.h, t.w))
      = some (1, 1, 2, 2) := by
  cases hE : (slide_run wModel wImg (2, 2) (2, 2) 1).2 with
  | error er =>
    have hok : (slide_run wModel wImg (2, 2) (2, 2) 1).2.toOption.isSome = true := by decide
    rw [hE] at hok
    simp [Except.toOption] at hok
  | ok t =>
    obtain ⟨ha, hb, hcc, hd⟩ := slide_output_shape wModel wImg (2, 2) (2, 2) 1 t hE
    simp [Except.toOption, ha, hb, hcc, hd, wImg, tmk]

/-- Claim C9: `flip_vertical` is accepted but never read: two runs of
`aug_inference` differing only in it have identical model-call traces,
identical outcomes, and identical Prediction Maps. -/
theorem aug_flip_vertical_noop (e : ℚ → ℚ) (model : Tensor4 → List Tensor4) (img : Tensor4)
    (os : Nat × Nat) (tr : List Unit) (isl : Bool) (ss cs : Int × Int) (nc : Nat)
    (scales : PyScales) (fh fv fv' : Bool) :
    aug_run e model img os tr isl ss cs nc scales fh fv
        = aug_run e model img os tr isl ss cs nc scales fh fv' ∧
      aug_inference e model img os tr isl ss cs nc scales fh fv
        = aug_inference e model img os tr isl ss cs nc scales fh fv' :=
  ⟨rfl, rfl⟩

/-- Claim C10: with `scales = []` the scale loop never runs, no model
invocation occurs (empty trace), and the final argmax is applied to the
scalar initial accumulator `0`, so no well-formed (1,1,h,w) Prediction
Map is returned. -/
theorem aug_empty_scales_degenerate (e : ℚ → ℚ) (model : Tensor4 → List Tensor4)
    (img : Tensor4) (os : Nat × Nat) (tr : List Unit) (isl : Bool) (ss cs : Int × Int)
    (nc : Nat) (fh fv : Bool) :
    aug_run e model img os tr isl ss cs nc (.list []) fh fv
        = ([], .error .argmaxNonTensor) ∧
      ∀ p : Pred4, aug_inference e model img os tr isl ss cs nc (.list []) fh fv ≠ .ok p :=
  ⟨rfl, fun _ h => Except.noConfusion h⟩

end Infer
